import Mathlib

/-!
# Verification of the zenoh-pico RPC generator against its specification

Shallow embedding, in Lean 4, of the code-generation decisions of this
repository (the protobuf-plugin generators under `generator/` and the
runtime RPC client under `tools/rpc/`), together with theorems settling the
frozen claims C1..C10.

Strings are embedded as Lean `String` / `List Char`; bytes as `Nat` values
below 256.  Python functions are translated definition-by-definition; each
embedded definition's doc comment names the source file and lines it
transcribes.
-/

namespace ZenohRpc

/-! ## Character classes used by the Python regexes and `str` methods

`[A-Z]`, `[a-z]`, `[0-9]` in a Python regex are exactly the ASCII ranges;
`str.split()` with no argument splits on runs of whitespace.  Python's
`str.strip()` whitespace set is larger than this, but the generator only
ever strips ASCII text; we model the ASCII whitespace characters. -/

/-- ASCII uppercase letter, the regex class `[A-Z]`. -/
def isUpperCh (c : Char) : Bool := 65 ≤ c.toNat && c.toNat ≤ 90

/-- ASCII lowercase letter, the regex class `[a-z]`. -/
def isLowerCh (c : Char) : Bool := 97 ≤ c.toNat && c.toNat ≤ 122

/-- ASCII digit, the regex class `[0-9]`. -/
def isDigitCh (c : Char) : Bool := 48 ≤ c.toNat && c.toNat ≤ 57

/-- ASCII whitespace, as recognised by Python `str.split()` / `str.strip()`
on ASCII input: space, tab, newline, carriage return, form feed, vertical
tab. -/
def isWsCh (c : Char) : Bool :=
  c.toNat = 32 || c.toNat = 9 || c.toNat = 10 || c.toNat = 13 || c.toNat = 12 || c.toNat = 11

/-- Python `str.lower()` restricted to ASCII: maps `A`-`Z` to `a`-`z` and
leaves every other character unchanged (the generator only lowercases
ASCII identifiers). -/
def toLowerCh (c : Char) : Char :=
  if 65 ≤ c.toNat ∧ c.toNat ≤ 90 then Char.ofNat (c.toNat + 32) else c

/-! ## `to_snake_case` — `generator/util.py` lines 6-10

```python
def to_snake_case(name):
    s1 = re.sub("(.)([A-Z][a-z]+)", r"\1_\2", name)
    return re.sub("([a-z0-9])([A-Z])", r"\1_\2", s1).lower()
```

`re.sub` scans left to right, replacing non-overlapping matches and
resuming after each match.  The first pattern matches any character other
than a newline (`.`), followed by an ASCII uppercase letter, followed by a
maximal (greedy `+`) non-empty run of ASCII lowercase letters; the
replacement inserts `_` between group 1 and group 2.  The second pattern
matches a lowercase letter or digit followed by an uppercase letter and
inserts `_` between them. -/

/-- First substitution of `to_snake_case`:
`re.sub("(.)([A-Z][a-z]+)", r"\1_\2", name)`.
The scan consumes at least one character per step, so a fuel of
`l.length` suffices; the fuel argument only makes the recursion
structural (the scan resumes after the greedy lowercase run). -/
def snakeSub1Go : Nat → List Char → List Char
  | 0, l => l
  | _ + 1, [] => []
  | _ + 1, [c] => [c]
  | fuel + 1, c1 :: c2 :: rest =>
    if c1 ≠ '\n' ∧ isUpperCh c2 ∧ (rest.takeWhile isLowerCh) ≠ [] then
      c1 :: '_' :: c2 :: rest.takeWhile isLowerCh ++ snakeSub1Go fuel (rest.dropWhile isLowerCh)
    else
      c1 :: snakeSub1Go fuel (c2 :: rest)

/-- `re.sub("(.)([A-Z][a-z]+)", r"\1_\2", name)` with sufficient fuel. -/
def snakeSub1 (l : List Char) : List Char := snakeSub1Go l.length l

/-- Second substitution of `to_snake_case`:
`re.sub("([a-z0-9])([A-Z])", r"\1_\2", s1)`.  The match is two characters
wide and scanning resumes after it, so this recursion is structural. -/
def snakeSub2 : List Char → List Char
  | [] => []
  | [c] => [c]
  | c1 :: c2 :: rest =>
    if (isLowerCh c1 ∨ isDigitCh c1) ∧ isUpperCh c2 then
      c1 :: '_' :: c2 :: snakeSub2 rest
    else
      c1 :: snakeSub2 (c2 :: rest)

/-- `to_snake_case` — `generator/util.py` lines 6-10. -/
def to_snake_case (name : String) : String :=
  ⟨(snakeSub2 (snakeSub1 name.data)).map toLowerCh⟩

example : to_snake_case "Sensor" = "sensor" := by decide
example : to_snake_case "SetLed" = "set_led" := by decide
example : to_snake_case "StartSensorStream" = "start_sensor_stream" := by decide
example : to_snake_case "" = "" := by decide
example : to_snake_case "ABCd" = "ab_cd" := by decide

/-! ### Properties of `to_snake_case` (claim C10) -/

theorem isUpperCh_toLowerCh (c : Char) : isUpperCh (toLowerCh c) = false := by
  unfold toLowerCh
  by_cases h : 65 ≤ c.toNat ∧ c.toNat ≤ 90
  · rw [if_pos h]
    obtain ⟨h1, h2⟩ := h
    generalize hn : c.toNat = n at h1 h2
    interval_cases n <;> decide
  · rw [if_neg h]
    simp only [isUpperCh, Bool.and_eq_false_iff, decide_eq_false_iff_not]
    omega

theorem toLowerCh_of_not_upper (c : Char) (h : isUpperCh c = false) : toLowerCh c = c := by
  unfold toLowerCh
  rw [if_neg]
  simp only [isUpperCh, Bool.and_eq_false_iff, decide_eq_false_iff_not] at h
  omega

theorem snakeSub1Go_of_noUpper :
    ∀ (fuel : Nat) (l : List Char), (∀ c ∈ l, isUpperCh c = false) → snakeSub1Go fuel l = l := by
  intro fuel
  induction fuel with
  | zero => intro l _; rfl
  | succ n ih =>
    intro l h
    match l with
    | [] => rfl
    | [c] => rfl
    | c1 :: c2 :: rest =>
      rw [snakeSub1Go, if_neg]
      · rw [ih (c2 :: rest) (fun c hc => h c (List.mem_cons_of_mem c1 hc))]
      · intro hcond
        have := h c2 (List.mem_cons_of_mem c1 (List.mem_cons_self c2 rest))
        rw [hcond.2.1] at this
        exact absurd this (by simp)

theorem snakeSub2_of_noUpper :
    ∀ (l : List Char), (∀ c ∈ l, isUpperCh c = false) → snakeSub2 l = l := by
  intro l
  induction l using snakeSub2.induct with
  | case1 => intro _; rfl
  | case2 c => intro _; rfl
  | case3 c1 c2 rest hcond ih =>
    intro h
    exact absurd ((h c2 (List.mem_cons_of_mem c1 (List.mem_cons_self c2 rest))) ▸ hcond.2)
      (by simp)
  | case4 c1 c2 rest hcond ih =>
    intro h
    rw [snakeSub2, if_neg hcond, ih (fun c hc => h c (List.mem_cons_of_mem c1 hc))]

theorem mapLower_of_noUpper :
    ∀ (l : List Char), (∀ c ∈ l, isUpperCh c = false) → l.map toLowerCh = l := by
  intro l h
  induction l with
  | nil => rfl
  | cons c cs ih =>
    simp only [List.map_cons]
    rw [toLowerCh_of_not_upper c (h c (List.mem_cons_self c cs)),
      ih (fun x hx => h x (List.mem_cons_of_mem c hx))]

theorem noUpper_to_snake_case (s : String) : ∀ c ∈ (to_snake_case s).data, isUpperCh c = false := by
  intro c hc
  unfold to_snake_case at hc
  simp only [List.mem_map] at hc
  obtain ⟨a, _, ha⟩ := hc
  rw [← ha]
  exact isUpperCh_toLowerCh a

/-- C10: `to_snake_case` is idempotent and its output contains no ASCII
uppercase letter (`generator/util.py` lines 6-10): applying it twice equals
applying it once, and every character of the output fails the `[A-Z]`
test. -/
theorem c10_to_snake_case_idempotent_and_lowercase :
    (∀ s : String, to_snake_case (to_snake_case s) = to_snake_case s) ∧
    (∀ s : String, (to_snake_case s).data.all (fun c => !isUpperCh c) = true) := by
  constructor
  · intro s
    have h := noUpper_to_snake_case s
    conv_lhs => rw [to_snake_case]
    rw [snakeSub1, snakeSub1Go_of_noUpper _ _ h, snakeSub2_of_noUpper _ h,
      mapLower_of_noUpper _ h]
  · intro s
    rw [List.all_eq_true]
    intro c hc
    rw [Bool.not_eq_true']
    exact noUpper_to_snake_case s c hc

/-! ## Python `str` methods used by the generators -/

/-- Python `s.endswith(suffix)`. -/
def pyEndsWith (s suffix : String) : Bool := suffix.data.isSuffixOf s.data

example : pyEndsWith ".practice.rpc.Empty" "Empty" = true := by decide
example : pyEndsWith "SensorTelemetry" "Telemetry" = true := by decide
example : pyEndsWith "LedResponse" "Empty" = false := by decide

/-- Scanner for Python `s.replace(old, new)` with a non-empty pattern
`p :: ps`: left-to-right, non-overlapping, resuming after each match.
The scan consumes at least one character per step, so `s.length` fuel
suffices; the fuel only makes the recursion structural. -/
def pyReplaceGo (p : Char) (ps repl : List Char) : Nat → List Char → List Char
  | 0, l => l
  | _ + 1, [] => []
  | fuel + 1, c :: cs =>
    if (p :: ps).isPrefixOf (c :: cs) then
      repl ++ pyReplaceGo p ps repl fuel (cs.drop ps.length)
    else
      c :: pyReplaceGo p ps repl fuel cs

/-- Python `s.replace(old, new)`.  An empty pattern inserts `new` at every
character boundary (`"ab".replace("", "X") == "XaXbX"`); a non-empty
pattern replaces non-overlapping occurrences left to right. -/
def pyReplace (s old new : String) : String :=
  match old.data with
  | [] => ⟨new.data ++ s.data.flatMap (fun c => c :: new.data)⟩
  | p :: ps => ⟨pyReplaceGo p ps new.data s.data.length s.data⟩

example : pyReplace "SensorTelemetry" "Telemetry" "" = "Sensor" := by decide
example : pyReplace "TelemetryTelemetry" "Telemetry" "" = "" := by decide
example : pyReplace "ab" "" "X" = "XaXbX" := by decide
example : pyReplace "aaa" "aa" "b" = "ba" := by decide

/-! ## Raw option extraction — `generator/util.py` lines 22-66

`get_option_value` linearly scans the serialized options bytes.  Tags and
lengths are read with `decoder._DecodeVarint32` (result masked to 32 bits),
skipped varint fields with `_DecodeVarint64` (masked to 64 bits); both read
little-endian 7-bit groups until a byte without the continuation bit, and
raise on a truncated buffer or after ten continuation bytes (`shift >= 64`).

We embed the byte buffer as `List Nat` (each entry a byte value) and the
scan position by passing the remaining suffix of the buffer.  A raised
exception is modelled as `Except.error ()`, Python `None` as `.ok none`,
and a successful extraction as `.ok (some bytes)` (the Python code decodes
these bytes as UTF-8 before returning them). -/

/-- Mask of `_DecodeVarint32`. -/
def mask32 : Nat := 2 ^ 32 - 1

/-- Mask of `_DecodeVarint64`. -/
def mask64 : Nat := 2 ^ 64 - 1

/-- One `_VarintDecoder` loop (`google.protobuf.internal.decoder`): read a
byte, accumulate its low 7 bits at the current shift, stop when the
continuation bit is clear, masking the result; `none` models the raised
error on a truncated buffer or a shift reaching 64.  Returns the decoded
value and the remaining bytes. -/
def decodeVarintAux (mask : Nat) : Nat → Nat → List Nat → Option (Nat × List Nat)
  | _, _, [] => none
  | shift, acc, b :: bs =>
    if 64 ≤ shift then none
    else
      let acc2 := acc ||| ((b &&& 0x7f) <<< shift)
      if b &&& 0x80 = 0 then some (acc2 &&& mask, bs)
      else decodeVarintAux mask (shift + 7) acc2 bs

/-- `decoder._DecodeVarint32` / `_DecodeVarint64`, selected by `mask`. -/
def decodeVarint (mask : Nat) (data : List Nat) : Option (Nat × List Nat) :=
  decodeVarintAux mask 0 0 data

/-- Loop body of `get_option_value` (`generator/util.py` lines 33-64).
The position is represented by the remaining suffix of the buffer; the
`while position < size` guard is the empty-list case.  Every iteration
consumes at least the one-byte-minimum tag varint, so a fuel of the buffer
length suffices; the fuel only makes the recursion structural. -/
def get_option_value_go (fieldNumber : Nat) : Nat → List Nat → Except Unit (Option (List Nat))
  | _, [] => .ok none
  | 0, _ :: _ => .error ()
  | fuel + 1, data =>
    match decodeVarint mask32 data with
    | none => .error ()
    | some (tag, rest) =>
      let current_field_number := tag >>> 3
      let wire_type := tag &&& 0x07
      if current_field_number = fieldNumber then
        if wire_type = 2 then
          match decodeVarint mask32 rest with
          | none => .error ()
          | some (length, rest2) => .ok (some (rest2.take length))
        else
          .ok none
      else if wire_type = 0 then
        match decodeVarint mask64 rest with
        | none => .error ()
        | some (_, rest2) => get_option_value_go fieldNumber fuel rest2
      else if wire_type = 1 then
        get_option_value_go fieldNumber fuel (rest.drop 8)
      else if wire_type = 2 then
        match decodeVarint mask32 rest with
        | none => .error ()
        | some (length, rest2) => get_option_value_go fieldNumber fuel (rest2.drop length)
      else if wire_type = 5 then
        get_option_value_go fieldNumber fuel (rest.drop 4)
      else
        get_option_value_go fieldNumber fuel rest

/-- `get_option_value` — `generator/util.py` lines 22-66. -/
def get_option_value (data : List Nat) (fieldNumber : Nat) : Except Unit (Option (List Nat)) :=
  get_option_value_go fieldNumber data.length data

/-! ### Specification-level view of the wire format (claim C1)

To state C1 we need an independent description of well-formed
tag/length-prefixed wire data: a list of fields, each a field number paired
with a wire value, serialized by the standard varint encoding.  The claim
is then a genuine statement: the byte-level scanner translated from the
source agrees with first-match extraction over the field list. -/

/-- Little-endian base-128 varint encoding; ten 7-bit groups cover every
value below `2 ^ 70`, so a fuel of 10 suffices (the fuel only makes the
recursion structural). -/
def encodeVarintGo : Nat → Nat → List Nat
  | 0, n => [n % 128]
  | fuel + 1, n => if n < 128 then [n] else (n % 128 + 128) :: encodeVarintGo fuel (n / 128)

/-- Standard protobuf varint encoding of `n` (for `n < 2 ^ 70`). -/
def encodeVarint (n : Nat) : List Nat := encodeVarintGo 10 n

/-- A wire value: varint (wire type 0), fixed 8 bytes (1), length-delimited
bytes (2), or fixed 4 bytes (5). -/
inductive WireVal where
  | vint (n : Nat)
  | f64 (bs : List Nat)
  | ldelim (bs : List Nat)
  | f32 (bs : List Nat)
deriving DecidableEq, Repr

/-- Wire type number of a wire value. -/
def wireTypeOf : WireVal → Nat
  | .vint _ => 0
  | .f64 _ => 1
  | .ldelim _ => 2
  | .f32 _ => 5

/-- Payload encoding of a wire value (length-delimited values are prefixed
with their varint length). -/
def encodePayload : WireVal → List Nat
  | .vint n => encodeVarint n
  | .f64 bs => bs
  | .ldelim bs => encodeVarint bs.length ++ bs
  | .f32 bs => bs

/-- One serialized field: field number and wire value. -/
structure RawField where
  fieldNo : Nat
  val : WireVal
deriving DecidableEq, Repr

/-- A field is serialized as the varint tag `fieldNo <<< 3 ||| wireType`
followed by its payload. -/
def encodeField (f : RawField) : List Nat :=
  encodeVarint ((f.fieldNo <<< 3) ||| wireTypeOf f.val) ++ encodePayload f.val

/-- Serialization of a field list. -/
def encodeFields (fs : List RawField) : List Nat := fs.flatMap encodeField

/-- Well-formedness of a serialized field: the field number is a legal
protobuf field number (below `2 ^ 29`), varint values fit in 64 bits,
length-delimited payload lengths fit in 32 bits, and fixed payloads have
their exact width. -/
def WFField (f : RawField) : Bool :=
  f.fieldNo < 2 ^ 29 &&
  match f.val with
  | .vint n => n < 2 ^ 64
  | .f64 bs => bs.length = 8
  | .ldelim bs => bs.length < 2 ^ 32
  | .f32 bs => bs.length = 4

/-- Specification-level extraction (the spec's words): find the first field
whose number equals the target; if it is length-delimited return its bytes,
otherwise no value; no value when no field matches. -/
def specExtract (fs : List RawField) (target : Nat) : Option (List Nat) :=
  match fs.find? (fun f => f.fieldNo == target) with
  | some f =>
    match f.val with
    | .ldelim bs => some bs
    | _ => none
  | none => none

/-! ### The varint round trip -/

theorem lor_shiftLeft_eq_add {a : Nat} (s b : Nat) (h : a < 2 ^ s) :
    a ||| (b <<< s) = a + b * 2 ^ s := by
  rw [Nat.shiftLeft_eq, Nat.lor_comm, Nat.mul_comm b (2 ^ s), ← Nat.mul_add_lt_is_or h b,
    Nat.add_comm, Nat.mul_comm]

theorem and_127_eq_mod (x : Nat) : x &&& 127 = x % 128 := by
  have h : (127 : Nat) = 2 ^ 7 - 1 := by norm_num
  have h2 : (128 : Nat) = 2 ^ 7 := by norm_num
  rw [h, h2, Nat.and_pow_two_sub_one_eq_mod]

theorem and_128_of_lt {n : Nat} (h : n < 128) : n &&& 128 = 0 := by
  apply Nat.eq_of_testBit_eq
  intro j
  rw [Nat.testBit_and, Nat.zero_testBit]
  have h128 : (128 : Nat) = 2 ^ 7 := by norm_num
  rw [h128, Nat.testBit_two_pow]
  by_cases hj : 7 = j
  · subst hj
    rw [Nat.testBit_lt_two_pow (by norm_num at h128 ⊢; omega)]
    simp
  · simp [hj]

theorem add_128_and_128 {r : Nat} (h : r < 128) : (r + 128) &&& 128 ≠ 0 := by
  intro hcontra
  have hbit : ((r + 128) &&& 128).testBit 7 = false := by
    rw [hcontra]; exact Nat.zero_testBit 7
  rw [Nat.testBit_and] at hbit
  have h1 : (r + 128).testBit 7 = true := by
    have heq : r + 128 = 2 ^ 7 * 1 + r := by norm_num; omega
    rw [heq, Nat.testBit_mul_pow_two_add 1 (by simpa using h) 7]
    norm_num
  have h2 : (128 : Nat).testBit 7 = true := by
    have : (128 : Nat) = 2 ^ 7 := by norm_num
    rw [this]; exact Nat.testBit_two_pow_self
  rw [h1, h2] at hbit
  exact absurd hbit (by simp)

theorem decodeVarintAux_encodeGo (mask : Nat) :
    ∀ (fuel k n acc : Nat) (rest : List Nat),
      n < 2 ^ (7 * fuel) → n < 2 ^ (70 - 7 * k) → 7 * k ≤ 63 → acc < 2 ^ (7 * k) →
      decodeVarintAux mask (7 * k) acc (encodeVarintGo fuel n ++ rest) =
        some ((acc + n * 2 ^ (7 * k)) &&& mask, rest) := by
  intro fuel
  induction fuel with
  | zero =>
    intro k n acc rest h1 _ h3 _
    have hn : n = 0 := by simpa using h1
    subst hn
    show decodeVarintAux mask (7 * k) acc ((0 % 128) :: rest) = _
    rw [decodeVarintAux, if_neg (by omega)]
    simp
  | succ fuel ih =>
    intro k n acc rest h1 h2 h3 h4
    rw [encodeVarintGo]
    by_cases hn : n < 128
    · rw [if_pos hn]
      show decodeVarintAux mask (7 * k) acc (n :: rest) = _
      rw [decodeVarintAux, if_neg (by omega)]
      simp only
      rw [if_pos (and_128_of_lt hn)]
      rw [and_127_eq_mod, Nat.mod_eq_of_lt hn, lor_shiftLeft_eq_add _ _ h4]
    · rw [if_neg hn]
      push_neg at hn
      show decodeVarintAux mask (7 * k) acc
        ((n % 128 + 128) :: (encodeVarintGo fuel (n / 128) ++ rest)) = _
      rw [decodeVarintAux, if_neg (by omega)]
      simp only
      rw [if_neg (add_128_and_128 (Nat.mod_lt n (by norm_num)))]
      rw [and_127_eq_mod, Nat.add_mod_right, Nat.mod_mod_of_dvd n (by norm_num : (128:Nat) ∣ 128)]
      rw [lor_shiftLeft_eq_add _ _ h4]
      have hklt : 7 * k < 63 := by
        have hpow : (128 : Nat) < 2 ^ (70 - 7 * k) := lt_of_le_of_lt hn h2
        rw [show (128 : Nat) = 2 ^ 7 by norm_num] at hpow
        have := (Nat.pow_lt_pow_iff_right (by norm_num : 1 < 2)).mp hpow
        omega
      have hstep : 7 * k + 7 = 7 * (k + 1) := by omega
      have hacc2 : acc + n % 128 * 2 ^ (7 * k) < 2 ^ (7 * (k + 1)) := by
        have hr : n % 128 < 128 := Nat.mod_lt n (by norm_num)
        have h5 : acc + n % 128 * 2 ^ (7 * k) < 2 ^ (7 * k) + 127 * 2 ^ (7 * k) := by
          have := Nat.mul_le_mul_right (2 ^ (7 * k)) (by omega : n % 128 ≤ 127)
          omega
        have h6 : (2 : Nat) ^ (7 * k) + 127 * 2 ^ (7 * k) = 2 ^ (7 * (k + 1)) := by
          rw [← hstep, pow_add]
          omega
        omega
      have hdiv1 : n / 128 < 2 ^ (7 * fuel) := by
        rw [Nat.div_lt_iff_lt_mul (by norm_num : (0:Nat) < 128)]
        calc n < 2 ^ (7 * (fuel + 1)) := h1
          _ = 2 ^ (7 * fuel) * 128 := by rw [Nat.mul_succ, pow_add]; norm_num
      have hdiv2 : n / 128 < 2 ^ (70 - 7 * (k + 1)) := by
        rw [Nat.div_lt_iff_lt_mul (by norm_num : (0:Nat) < 128)]
        calc n < 2 ^ (70 - 7 * k) := h2
          _ = 2 ^ (70 - 7 * (k + 1)) * 128 := by
            rw [show (128 : Nat) = 2 ^ 7 by norm_num, ← pow_add]
            congr 1
            omega
      rw [hstep, ih (k + 1) (n / 128) _ rest hdiv1 hdiv2 (by omega) hacc2]
      have hmd : n % 128 + 128 * (n / 128) = n := Nat.mod_add_div n 128
      congr 2
      set a := n % 128 with ha
      set b := n / 128 with hb
      rw [← hstep, pow_add, ← hmd]
      ring_nf

theorem decodeVarint_encode (mask n : Nat) (rest : List Nat) (h : n < 2 ^ 70) :
    decodeVarint mask (encodeVarint n ++ rest) = some (n &&& mask, rest) := by
  have h0 := decodeVarintAux_encodeGo mask 10 0 n 0 rest (by norm_num at h ⊢; omega)
    (by simpa using h) (by norm_num) (by norm_num)
  simpa [decodeVarint, encodeVarint] using h0

theorem decodeVarint32_encode (n : Nat) (rest : List Nat) (h : n < 2 ^ 32) :
    decodeVarint mask32 (encodeVarint n ++ rest) = some (n, rest) := by
  rw [decodeVarint_encode mask32 n rest (lt_trans h (by norm_num))]
  have hand : n &&& mask32 = n := by
    unfold mask32
    exact Nat.and_pow_two_sub_one_of_lt_two_pow h
  rw [hand]

theorem decodeVarint64_encode (n : Nat) (rest : List Nat) (h : n < 2 ^ 64) :
    decodeVarint mask64 (encodeVarint n ++ rest) = some (n, rest) := by
  rw [decodeVarint_encode mask64 n rest (lt_trans h (by norm_num))]
  have hand : n &&& mask64 = n := by
    unfold mask64
    exact Nat.and_pow_two_sub_one_of_lt_two_pow h
  rw [hand]

theorem encodeVarint_ne_nil (n : Nat) : encodeVarint n ≠ [] := by
  unfold encodeVarint encodeVarintGo
  split <;> simp

theorem encodeVarint_length_pos (n : Nat) : 1 ≤ (encodeVarint n).length :=
  List.length_pos.mpr (encodeVarint_ne_nil n)

theorem get_option_value_go_nil (t fuel : Nat) : get_option_value_go t fuel [] = .ok none := by
  cases fuel <;> rfl

theorem get_option_value_go_cons (t fuel b : Nat) (bs : List Nat) :
    get_option_value_go t (fuel + 1) (b :: bs) =
      (match decodeVarint mask32 (b :: bs) with
      | none => .error ()
      | some (tag, rest) =>
        if tag >>> 3 = t then
          if tag &&& 0x07 = 2 then
            match decodeVarint mask32 rest with
            | none => .error ()
            | some (length, rest2) => .ok (some (rest2.take length))
          else
            .ok none
        else if tag &&& 0x07 = 0 then
          match decodeVarint mask64 rest with
          | none => .error ()
          | some (_, rest2) => get_option_value_go t fuel rest2
        else if tag &&& 0x07 = 1 then
          get_option_value_go t fuel (rest.drop 8)
        else if tag &&& 0x07 = 2 then
          match decodeVarint mask32 rest with
          | none => .error ()
          | some (length, rest2) => get_option_value_go t fuel (rest2.drop length)
        else if tag &&& 0x07 = 5 then
          get_option_value_go t fuel (rest.drop 4)
        else
          get_option_value_go t fuel rest) := rfl

/-! ### The scanner agrees with first-match extraction -/

theorem get_option_value_go_encodeFields (target : Nat) :
    ∀ (fs : List RawField) (fuel : Nat),
      (∀ f ∈ fs, WFField f = true) → (encodeFields fs).length ≤ fuel →
      get_option_value_go target fuel (encodeFields fs) = .ok (specExtract fs target) := by
  intro fs
  induction fs with
  | nil =>
    intro fuel _ _
    show get_option_value_go target fuel [] = _
    rw [get_option_value_go_nil]
    rfl
  | cons f fs ih =>
    intro fuel hwf hlen
    have hwff := hwf f (List.mem_cons_self f fs)
    have hNo : f.fieldNo < 2 ^ 29 := by
      unfold WFField at hwff
      have := (Bool.and_eq_true _ _).mp hwff
      simpa using this.1
    have hwt : wireTypeOf f.val ≤ 7 := by cases f.val <;> simp [wireTypeOf]
    have htag : (f.fieldNo <<< 3) ||| wireTypeOf f.val = f.fieldNo * 8 + wireTypeOf f.val := by
      rw [Nat.lor_comm, lor_shiftLeft_eq_add 3 f.fieldNo (by omega)]
      omega
    set tag := (f.fieldNo <<< 3) ||| wireTypeOf f.val with htagdef
    have htaglt : tag < 2 ^ 32 := by rw [htag]; omega
    have htagx : tag >>> 3 = f.fieldNo := by
      rw [htag, Nat.shiftRight_eq_div_pow]
      omega
    have htagand : tag &&& 0x07 = wireTypeOf f.val := by
      rw [show (0x07 : Nat) = 2 ^ 3 - 1 by norm_num, Nat.and_pow_two_sub_one_eq_mod, htag]
      omega
    have hdata : encodeFields (f :: fs) =
        encodeVarint tag ++ (encodePayload f.val ++ encodeFields fs) := by
      simp [encodeFields, encodeField, htagdef]
    have hlen1 : 1 ≤ (encodeVarint tag).length := encodeVarint_length_pos tag
    have hlenpos : 1 ≤ (encodeFields (f :: fs)).length := by
      rw [hdata, List.length_append]
      omega
    cases fuel with
    | zero => omega
    | succ fuel =>
      have htail : (encodeFields fs).length ≤ fuel := by
        rw [hdata] at hlen
        simp [List.length_append] at hlen
        omega
      obtain ⟨c, ctail, hc⟩ := List.exists_cons_of_ne_nil (encodeVarint_ne_nil tag)
      have hdec : decodeVarint mask32 (c :: (ctail ++ (encodePayload f.val ++ encodeFields fs)))
          = some (tag, encodePayload f.val ++ encodeFields fs) := by
        rw [← List.cons_append, ← hc]
        exact decodeVarint32_encode tag _ htaglt
      rw [hdata, hc, List.cons_append]
      rw [get_option_value_go_cons, hdec]
      simp only [htagx, htagand]
      by_cases hft : f.fieldNo = target
      · rw [if_pos hft]
        have hspec : specExtract (f :: fs) target =
            match f.val with
            | .ldelim bs => some bs
            | _ => none := by
          unfold specExtract
          rw [List.find?_cons]
          have : (f.fieldNo == target) = true := by simpa using hft
          rw [this]
        rw [hspec]
        cases hv : f.val with
        | vint n => rw [if_neg (by simp [wireTypeOf, hv])]
        | f64 bs => rw [if_neg (by simp [wireTypeOf, hv])]
        | f32 bs => rw [if_neg (by simp [wireTypeOf, hv])]
        | ldelim bs =>
          rw [if_pos (by simp [wireTypeOf, hv])]
          have hbs : bs.length < 2 ^ 32 := by
            unfold WFField at hwff
            have := (Bool.and_eq_true _ _).mp hwff
            rw [hv] at this
            simpa using this.2
          have hdec2 : decodeVarint mask32 (encodePayload (WireVal.ldelim bs) ++ encodeFields fs)
              = some (bs.length, bs ++ encodeFields fs) := by
            show decodeVarint mask32 ((encodeVarint bs.length ++ bs) ++ encodeFields fs) = _
            rw [List.append_assoc]
            exact decodeVarint32_encode bs.length _ hbs
          rw [hdec2]
          simp only [List.take_left]
      · rw [if_neg hft]
        have hspec : specExtract (f :: fs) target = specExtract fs target := by
          unfold specExtract
          rw [List.find?_cons]
          have : (f.fieldNo == target) = false := by simpa using hft
          rw [this]
        rw [hspec]
        cases hv : f.val with
        | vint n =>
          rw [if_pos (by simp [wireTypeOf, hv])]
          have hn64 : n < 2 ^ 64 := by
            unfold WFField at hwff
            have := (Bool.and_eq_true _ _).mp hwff
            rw [hv] at this
            simpa using this.2
          have hdec2 : decodeVarint mask64 (encodePayload (WireVal.vint n) ++ encodeFields fs)
              = some (n, encodeFields fs) := by
            exact decodeVarint64_encode n _ hn64
          rw [hdec2]
          exact ih fuel (fun g hg => hwf g (List.mem_cons_of_mem f hg)) htail
        | f64 bs =>
          rw [if_neg (by simp [wireTypeOf, hv]), if_pos (by simp [wireTypeOf, hv])]
          have hbs : bs.length = 8 := by
            unfold WFField at hwff
            have := (Bool.and_eq_true _ _).mp hwff
            rw [hv] at this
            simpa using this.2
          have hdrop : (encodePayload (WireVal.f64 bs) ++ encodeFields fs).drop 8 = encodeFields fs := by
            exact List.drop_left' (by simpa [encodePayload] using hbs)
          rw [hdrop]
          exact ih fuel (fun g hg => hwf g (List.mem_cons_of_mem f hg)) htail
        | ldelim bs =>
          rw [if_neg (by simp [wireTypeOf, hv]), if_neg (by simp [wireTypeOf, hv]),
            if_pos (by simp [wireTypeOf, hv])]
          have hbs : bs.length < 2 ^ 32 := by
            unfold WFField at hwff
            have := (Bool.and_eq_true _ _).mp hwff
            rw [hv] at this
            simpa using this.2
          have hdec2 : decodeVarint mask32 (encodePayload (WireVal.ldelim bs) ++ encodeFields fs)
              = some (bs.length, bs ++ encodeFields fs) := by
            show decodeVarint mask32 ((encodeVarint bs.length ++ bs) ++ encodeFields fs) = _
            rw [List.append_assoc]
            exact decodeVarint32_encode bs.length _ hbs
          rw [hdec2]
          simp only [List.drop_left]
          exact ih fuel (fun g hg => hwf g (List.mem_cons_of_mem f hg)) htail
        | f32 bs =>
          rw [if_neg (by simp [wireTypeOf, hv]), if_neg (by simp [wireTypeOf, hv]),
            if_neg (by simp [wireTypeOf, hv]), if_pos (by simp [wireTypeOf, hv])]
          have hbs : bs.length = 4 := by
            unfold WFField at hwff
            have := (Bool.and_eq_true _ _).mp hwff
            rw [hv] at this
            simpa using this.2
          have hdrop : (encodePayload (WireVal.f32 bs) ++ encodeFields fs).drop 4 = encodeFields fs := by
            exact List.drop_left' (by simpa [encodePayload] using hbs)
          rw [hdrop]
          exact ih fuel (fun g hg => hwf g (List.mem_cons_of_mem f hg)) htail

/-- C1: for every serialized options buffer (well-formed field list) and
target field number, `get_option_value` (`generator/util.py` lines 22-66)
returns the first matching field's length-delimited byte range when its
wire type is 2, no value when the first matching field has any other wire
type, skips non-matching fields per wire type (0: varint, 1: 8 bytes,
2: length-delimited, 5: 4 bytes), and returns no value when the buffer is
exhausted without a match — i.e. it agrees with first-match extraction
(`specExtract`) over the field list.  The returned bytes are what the
Python code then decodes as UTF-8. -/
theorem c1_get_option_value_first_match (fs : List RawField) (target : Nat)
    (hwf : ∀ f ∈ fs, WFField f = true) :
    get_option_value (encodeFields fs) target = .ok (specExtract fs target) := by
  unfold get_option_value
  exact get_option_value_go_encodeFields target fs _ hwf (le_refl _)

/-- Witness for C1, instantiating the spec's test vectors: a buffer holding
the string `"X"` (byte 88, `'X'`) at field 50001 yields those bytes for key
50001, yields no value for key 50002, and a varint-typed field at 50001
yields no value. -/
theorem c1_get_option_value_first_match_witness :
    get_option_value (encodeFields [⟨50001, WireVal.ldelim [88]⟩]) 50001 = .ok (some [88]) ∧
    get_option_value (encodeFields [⟨50001, WireVal.ldelim [88]⟩]) 50002 = .ok none ∧
    get_option_value (encodeFields [⟨50001, WireVal.vint 1⟩]) 50001 = .ok none ∧
    'X'.toNat = 88 := by
  refine ⟨?_, ?_, ?_, by decide⟩
  · exact (c1_get_option_value_first_match [⟨50001, WireVal.ldelim [88]⟩] 50001
      (by decide)).trans rfl
  · exact (c1_get_option_value_first_match [⟨50001, WireVal.ldelim [88]⟩] 50002
      (by decide)).trans rfl
  · exact (c1_get_option_value_first_match [⟨50001, WireVal.vint 1⟩] 50001
      (by decide)).trans rfl

/-! ## The Zenoh RPC client — `tools/rpc/zenoh_rpc_client.py`

`ZenohRpcClient.call` (lines 42-62) builds the key expression from the
device id, service name and method name, sends the request, and converts
the replies — first reply wins, zero replies is a distinct error, any
exception becomes a failure result. -/

/-- `RpcResult` — `tools/rpc/zenoh_rpc_client.py` lines 14-20.  The payload
is embedded as a byte list. -/
structure RpcResult where
  success : Bool
  data : List Nat
  error : Option String
deriving DecidableEq, Repr

/-- `RpcResponse` — `tools/rpc/zenoh_rpc_client.py` lines 23-28. -/
structure RpcResponse where
  success : Bool
  error : Option String
deriving DecidableEq, Repr

/-- One reply delivered by `session.get`: either an ok payload
(`reply.ok.payload`) or an error value (`reply.err`, embedded as its
rendered text). -/
inductive ZenohReply where
  | ok (payload : List Nat)
  | err (message : String)
deriving DecidableEq, Repr

/-- Key-expression construction of `ZenohRpcClient.call`
(`tools/rpc/zenoh_rpc_client.py` lines 44-47); the Python test
`if self.device_id:` is true exactly for a non-empty device id, so the
empty-string case is written first here. -/
def rpcCallKeyExpr (deviceId serviceName methodName : String) : String :=
  if deviceId = "" then "rpc/" ++ serviceName ++ "/" ++ methodName
  else deviceId ++ "/rpc/" ++ serviceName ++ "/" ++ methodName

/-- Reply handling of `ZenohRpcClient.call`
(`tools/rpc/zenoh_rpc_client.py` lines 49-62).  The transport interaction
is abstracted as its outcome: `.error e` models an exception raised by
`session.get` or the reply iteration (caught and rendered as `str(e)`),
`.ok replies` the list of replies the iterator would yield.  The `for`
loop returns on the first reply, ok or error. -/
def rpcCallResult (outcome : Except String (List ZenohReply)) : RpcResult :=
  match outcome with
  | .error e => ⟨false, [], some e⟩
  | .ok replies =>
    match replies with
    | [] => ⟨false, [], some "No reply received"⟩
    | reply :: _ =>
      match reply with
      | .ok payload => ⟨true, payload, none⟩
      | .err m => ⟨false, [], some ("Reply error: " ++ m)⟩

/-! ## The emitted nanopb server handler — `generator/gen_server_nanopb.py`

`generate_code` (lines 261-317) emits, per method, a C++ handler whose
shape depends only on whether the request/response message types appear in
the pointer-field registry (`req_needs_release` / `res_needs_release`):
`pb_release` statements are emitted exactly on the paths shown in the
source.  We give the emitted handler's operational reading: the outcomes of
`pb_decode`, the implementation call and `pb_encode` are inputs, and the
trace records the returned status and which releases ran. -/

/-- Status values referenced by the generated server code
(`zenoh_rpc::RpcStatus`).  The enum itself lives in the runtime channel
header outside the generator sources; `APP_ERROR` stands for any non-OK
status an implementation may return. -/
inductive RpcStatus where
  | OK
  | DECODE_ERROR
  | ENCODE_ERROR
  | APP_ERROR
deriving DecidableEq, Repr

/-- Observable outcome of one emitted handler invocation: returned status,
whether the implementation was invoked, and whether the request/response
`pb_release` statements ran. -/
structure HandlerTrace where
  status : RpcStatus
  invoked : Bool
  releasedReq : Bool
  releasedRes : Bool
deriving DecidableEq, Repr

/-- Operational reading of the handler emitted by
`generator/gen_server_nanopb.py` lines 271-316: decode the request (on
failure return `DECODE_ERROR` without invoking the implementation), invoke
the implementation (on non-OK status release the request if pointer-bearing
and propagate the status), encode the response (on failure release request
and response as applicable and return `ENCODE_ERROR`), then release as
applicable and return `OK`. -/
def emittedHandler (reqNeedsRelease resNeedsRelease : Bool)
    (decodeOk : Bool) (implStatus : RpcStatus) (encodeOk : Bool) : HandlerTrace :=
  if !decodeOk then
    ⟨.DECODE_ERROR, false, false, false⟩
  else if implStatus ≠ .OK then
    ⟨implStatus, true, reqNeedsRelease, false⟩
  else if !encodeOk then
    ⟨.ENCODE_ERROR, true, reqNeedsRelease, resNeedsRelease⟩
  else
    ⟨.OK, true, reqNeedsRelease, resNeedsRelease⟩

/-! ## Descriptor model used by the generators -/

/-- One declared extension of a schema file (`proto_file.extension`
entries): its name and field number. -/
structure ProtoExtension where
  name : String
  number : Nat
deriving DecidableEq, Repr

/-- One schema file of the generation request, with its declared
extensions. -/
structure ProtoFileDesc where
  name : String
  extensions : List ProtoExtension
deriving DecidableEq, Repr

/-- The generation request: the list of schema files
(`request.proto_file`). -/
structure CodeGenRequest where
  proto_file : List ProtoFileDesc
deriving DecidableEq, Repr

/-- `find_zenoh_key` — `generator/util.py` lines 13-19: scan every file's
extensions in order and return the field number of the first extension
whose name ends with `"zenoh_key"`, defaulting to 50001. -/
def find_zenoh_key (request : CodeGenRequest) : Nat :=
  match request.proto_file.findSome?
      (fun proto_file => proto_file.extensions.find?
        (fun ext => pyEndsWith ext.name "zenoh_key")) with
  | some ext => ext.number
  | none => 50001

/-- One message field (`FieldDescriptorProto`): name and type number. -/
structure FieldDesc where
  name : String
  ftype : Nat
deriving DecidableEq, Repr

/-- One message descriptor: name, fields, and serialized options bytes. -/
structure MessageDesc where
  name : String
  fields : List FieldDesc
  options : List Nat
deriving DecidableEq, Repr

/-- Qualified-name key under which `get_message_map` registers a message:
`".{package}.{name}"` when the package is non-empty (Python truthiness of
`package`), else `".{name}"` — `generator/gen_client_python.py` line 30. -/
def qualifiedName (package name : String) : String :=
  if package = "" then "." ++ name else "." ++ package ++ "." ++ name

/-- `get_message_map` — `generator/gen_client_python.py` lines 26-32,
embedded as an association list (message names are unique within a file,
so first-key lookup coincides with Python dict lookup). -/
def get_message_map (package : String) (messages : List MessageDesc) :
    List (String × MessageDesc) :=
  messages.map (fun msg => (qualifiedName package msg.name, msg))

/-- Python `dict.get`: look the key up, `none` when absent. -/
def msgMapGet (msgMap : List (String × MessageDesc)) (key : String) : Option MessageDesc :=
  (msgMap.find? (fun kv => kv.1 == key)).map (fun kv => kv.2)

/-- Per-method field-parameter list emitted by the client generator
(`generator/gen_client_python.py` lines 77-101): the input type is looked
up in the message map; a resolved message with at least one field
contributes one named parameter per field, and the same list is used as
the constructor arguments when no pre-built request is supplied
(`request = pb.Req(...)`); otherwise the list is empty and the request is
constructed with zero arguments. -/
def methodFieldParams (msgMap : List (String × MessageDesc)) (inputType : String) :
    List String :=
  match msgMapGet msgMap inputType with
  | some input_msg =>
    if 0 < input_msg.fields.length then input_msg.fields.map (fun f => f.name) else []
  | none => []

/-! ## The emitted client call — `generator/gen_client_python.py` lines 87-117 -/

/-- Shape of the value returned by an emitted client call: either a bare
`RpcResponse` (methods whose output type name ends with `"Empty"`), or a
pair of the response marker and an optional decoded payload. -/
inductive GeneratedCallResult (Payload : Type) where
  | statusOnly (resp : RpcResponse)
  | withPayload (resp : RpcResponse) (payload : Option Payload)

/-- Return-value construction of the emitted client call
(`generator/gen_client_python.py` lines 87-117): `is_empty` is
`method.output_type.endswith("Empty")`; on transport success an empty
method returns only a success marker and a non-empty method parses the
reply bytes (abstracted by `parse`) and pairs them with the marker; on
transport failure the error text is propagated and no payload is
returned. -/
def emittedClientCall {Payload : Type} (outputType : String)
    (parse : List Nat → Payload) (result : RpcResult) : GeneratedCallResult Payload :=
  if pyEndsWith outputType "Empty" then
    if result.success then .statusOnly ⟨true, none⟩
    else .statusOnly ⟨false, result.error⟩
  else
    if result.success then .withPayload ⟨true, none⟩ (some (parse result.data))
    else .withPayload ⟨false, result.error⟩ none

/-! ## The emitted telemetry subscriber topic — `generator/gen_client_python.py` lines 138-151 -/

/-- Key expression subscribed by the emitted telemetry subscriber for one
telemetry message (`generator/gen_client_python.py` lines 138-151):
`base_name = msg.name.replace("Telemetry", "")` (Python `replace` removes
every occurrence), `snake_name = to_snake_case(base_name)`; the custom
option at `keyFieldNumber` is extracted from the serialized message
options (`utf8` abstracts the UTF-8 decoding of the extracted bytes; a
raised extraction exception propagates, Python falsiness of `None` and of
the empty string selects the default `"/telemetry/{snake_name}"`); the
subscriber then uses `f"{self.device_id}{zenoh_key}"`. -/
def telemetryKeyExpr (utf8 : List Nat → String) (keyFieldNumber : Nat)
    (deviceId : String) (msg : MessageDesc) : Except Unit String :=
  let snake_name := to_snake_case (pyReplace msg.name "Telemetry" "")
  match get_option_value msg.options keyFieldNumber with
  | .error e => .error e
  | .ok v =>
    let zenoh_key :=
      match v with
      | some bs => if utf8 bs = "" then "/telemetry/" ++ snake_name else utf8 bs
      | none => "/telemetry/" ++ snake_name
    .ok (deviceId ++ zenoh_key)

/-- The telemetry messages of a file and the custom-option field number
each lookup uses, transcribing the subscriber loop of
`generator/gen_client_python.py` lines 123 and 138-143: the messages whose
names end with `"Telemetry"`, each paired with the field number passed to
`get_option_value`, namely `find_zenoh_key(request)` evaluated in that
iteration. -/
def telemetryLookupKeys (request : CodeGenRequest) (messages : List MessageDesc) :
    List (String × Nat) :=
  (messages.filter (fun m => pyEndsWith m.name "Telemetry")).map
    (fun msg => (msg.name, find_zenoh_key request))

/-- Base-name computation as the claim words it: the `"Telemetry"` suffix
removed (only the suffix). -/
def dropSuffixStr (s suffix : String) : String :=
  if pyEndsWith s suffix then ⟨s.data.take (s.data.length - suffix.data.length)⟩ else s

example : dropSuffixStr "SensorTelemetry" "Telemetry" = "Sensor" := by decide
example : dropSuffixStr "TelemetryTelemetry" "Telemetry" = "Telemetry" := by decide

/-! ## The sidecar pointer-field registry — `generator/gen_server_nanopb.py` lines 21-90 -/

/-- Python `s.startswith(p)`. -/
def pyStartsWith (s pre : String) : Bool := pre.data.isPrefixOf s.data

/-- Python `s.strip()` on ASCII text: drop leading and trailing
whitespace. -/
def pyStrip (s : String) : String :=
  ⟨((s.data.dropWhile isWsCh).reverse.dropWhile isWsCh).reverse⟩

/-- Substring test, Python `sub in s`. -/
def containsSub (pat : List Char) : List Char → Bool
  | [] => pat.isPrefixOf []
  | c :: cs => pat.isPrefixOf (c :: cs) || containsSub pat cs

/-- Python `sub in s`. -/
def pyContains (s sub : String) : Bool := containsSub sub.data s.data

/-- One step of whitespace splitting, applied by `foldr`: whitespace
closes the current token (avoiding empty tokens), any other character is
prepended to it. -/
def splitWsStep (c : Char) (acc : List (List Char)) : List (List Char) :=
  if isWsCh c then
    match acc with
    | [] => []
    | [] :: _ => acc
    | _ => [] :: acc
  else
    match acc with
    | [] => [[c]]
    | t :: ts => (c :: t) :: ts

/-- Python `s.split()` with no argument: split on runs of whitespace,
discarding empty tokens. -/
def pySplitWs (s : String) : List String :=
  match s.data.foldr splitWsStep [] with
  | [] :: ts => ts.map (fun l => ⟨l⟩)
  | r => r.map (fun l => ⟨l⟩)

example : pySplitWs "pkg.Msg.field type:FT_POINTER" = ["pkg.Msg.field", "type:FT_POINTER"] := by
  decide
example : pySplitWs "  a  b " = ["a", "b"] := by decide
example : pySplitWs "" = [] := by decide

/-- Python `s.split(".")`: split at every dot, keeping empty segments. -/
def splitDot : List Char → List (List Char)
  | [] => [[]]
  | c :: cs =>
    if c = '.' then [] :: splitDot cs
    else
      match splitDot cs with
      | [] => [[c]]
      | t :: ts => (c :: t) :: ts

/-- Python `s.split(".")`. -/
def pySplitDot (s : String) : List String := (splitDot s.data).map (fun l => ⟨l⟩)

example : pySplitDot "pkg.Msg.field" = ["pkg", "Msg", "field"] := by decide
example : pySplitDot "Msg" = ["Msg"] := by decide
example : pySplitDot ".Msg" = ["", "Msg"] := by decide

/-- Line-processing of `parse_options_file` —
`generator/gen_server_nanopb.py` lines 65-90.  The file-system search
(lines 28-66) and the read `try`/`except` are abstracted as the input:
`none` models a missing file or a read error (warning printed, empty
registry, never fatal), `some fileLines` the lines read.  Each stripped
non-comment line containing `"type:FT_POINTER"` with at least two
whitespace-separated parts contributes `field_path.split(".")[-2]` (the
message-name segment; qualification and field name are discarded) when the
path is dotted and that segment is non-empty (Python truthiness of
`msg_name`).  The Python set is embedded as the list of added names;
membership is the registry lookup. -/
def parse_options_line (messages_with_pointers : List String) (rawLine : String) :
    List String :=
  let line := pyStrip rawLine
  if line.data = [] ∨ pyStartsWith line "#" then messages_with_pointers
  else if pyContains line "type:FT_POINTER" then
    match pySplitWs line with
    | [] => messages_with_pointers
    | field_path :: parts_rest =>
      if 1 ≤ parts_rest.length then
        if '.' ∈ field_path.data then
          let segs := pySplitDot field_path
          match segs.get? (segs.length - 2) with
          | some msg_name =>
            if msg_name.data = [] then messages_with_pointers
            else messages_with_pointers ++ [msg_name]
          | none => messages_with_pointers
        else messages_with_pointers
      else messages_with_pointers
  else messages_with_pointers

/-- `parse_options_file` folds the loop body `parse_options_line` over the
file's lines (see the section comment above for the modelling of the
file-system search). -/
def parse_options_file (content : Option (List String)) : List String :=
  match content with
  | none => []
  | some fileLines => fileLines.foldl parse_options_line []

/-- The message name a single sidecar line contributes, `none` when the
loop body skips the line: this is `parse_options_line` with the
accumulator abstracted away, used to state which names a file can ever
put into the registry. -/
def lineMsgName (rawLine : String) : Option String :=
  let line := pyStrip rawLine
  if line.data = [] ∨ pyStartsWith line "#" then none
  else if pyContains line "type:FT_POINTER" then
    match pySplitWs line with
    | [] => none
    | field_path :: parts_rest =>
      if 1 ≤ parts_rest.length then
        if '.' ∈ field_path.data then
          let segs := pySplitDot field_path
          match segs.get? (segs.length - 2) with
          | some msg_name =>
            if msg_name.data = [] then none
            else some msg_name
          | none => none
        else none
      else none
  else none

example : lineMsgName "pkg.Msg.field type:FT_POINTER" = some "Msg" := by decide
example : lineMsgName "# pkg.Msg.field type:FT_POINTER" = none := by decide
example : lineMsgName "Msg type:FT_POINTER" = none := by decide

example :
    parse_options_file (some ["pkg.Msg.field type:FT_POINTER"]) = ["Msg"] := by decide
example :
    parse_options_file (some ["# comment", "", "practice.rpc.EchoRequestMalloc.msg type:FT_POINTER"])
      = ["EchoRequestMalloc"] := by decide
example : parse_options_file none = [] := by decide

/-! ## Claims C3 and C8: the RPC call -/

/-- C3: the RPC call key expression is `"<d>/rpc/<S>/<M>"` for a non-empty
device id and `"rpc/<S>/<M>"` for an empty one
(`tools/rpc/zenoh_rpc_client.py` lines 44-47), in particular for the spec's
key scenario (`dev1`/`DeviceService`/`SetLed`). -/
theorem c3_rpc_call_key_expr :
    (∀ deviceId serviceName methodName : String, deviceId ≠ "" →
      rpcCallKeyExpr deviceId serviceName methodName =
        deviceId ++ "/rpc/" ++ serviceName ++ "/" ++ methodName) ∧
    (∀ serviceName methodName : String,
      rpcCallKeyExpr "" serviceName methodName = "rpc/" ++ serviceName ++ "/" ++ methodName) ∧
    rpcCallKeyExpr "dev1" "DeviceService" "SetLed" = "dev1/rpc/DeviceService/SetLed" ∧
    rpcCallKeyExpr "" "DeviceService" "SetLed" = "rpc/DeviceService/SetLed" := by
  refine ⟨?_, ?_, by decide, by decide⟩
  · intro d s m hd
    unfold rpcCallKeyExpr
    rw [if_neg hd]
  · intro s m
    unfold rpcCallKeyExpr
    rw [if_pos rfl]

/-- Witness for C3 at the spec's key scenario. -/
theorem c3_rpc_call_key_expr_witness :
    rpcCallKeyExpr "dev1" "DeviceService" "SetLed" =
      "dev1" ++ "/rpc/" ++ "DeviceService" ++ "/" ++ "SetLed" :=
  c3_rpc_call_key_expr.1 "dev1" "DeviceService" "SetLed" (by decide)

theorem no_reply_ne_reply_error (m : String) :
    ("No reply received" : String) ≠ "Reply error: " ++ m := by
  intro h
  obtain ⟨l⟩ := m
  have h1 : ("No reply received" : String).data.head? = some 'N' := rfl
  rw [h] at h1
  have h2 : ("Reply error: " ++ String.mk l).data.head? = some 'R' := rfl
  rw [h2] at h1
  exact absurd h1 (by decide)

/-- C8: `ZenohRpcClient.call` (`tools/rpc/zenoh_rpc_client.py` lines 49-62)
consumes at most one reply and the first reply wins (the result depends
only on the first reply, ok or error); zero replies yields the
`"No reply received"` failure, distinct from the failure of an explicit
error reply; and a transport exception becomes a failure result carrying
its message rather than propagating. -/
theorem c8_rpc_call_reply_handling :
    (∀ (reply : ZenohReply) (rest : List ZenohReply),
      rpcCallResult (.ok (reply :: rest)) = rpcCallResult (.ok [reply])) ∧
    (∀ (payload : List Nat) (rest : List ZenohReply),
      rpcCallResult (.ok (.ok payload :: rest)) = ⟨true, payload, none⟩) ∧
    (∀ (m : String) (rest : List ZenohReply),
      rpcCallResult (.ok (.err m :: rest)) = ⟨false, [], some ("Reply error: " ++ m)⟩) ∧
    rpcCallResult (.ok []) = ⟨false, [], some "No reply received"⟩ ∧
    (∀ m : String,
      (rpcCallResult (.ok [])).error ≠ (rpcCallResult (.ok [ZenohReply.err m])).error) ∧
    (∀ e : String, rpcCallResult (.error e) = ⟨false, [], some e⟩) := by
  refine ⟨?_, fun _ _ => rfl, fun _ _ => rfl, rfl, ?_, fun _ => rfl⟩
  · intro reply rest
    cases reply <;> rfl
  · intro m hcontra
    exact no_reply_ne_reply_error m (Option.some.inj hcontra)

/-- Witness for C8: a concrete ok reply followed by further replies is
decided by the first reply alone, and the no-reply error differs from a
concrete error reply's error. -/
theorem c8_rpc_call_reply_handling_witness :
    rpcCallResult (.ok [ZenohReply.ok [7], ZenohReply.err "late"]) = ⟨true, [7], none⟩ ∧
    (rpcCallResult (.ok [])).error ≠ (rpcCallResult (.ok [ZenohReply.err "boom"])).error :=
  ⟨c8_rpc_call_reply_handling.2.1 [7] [ZenohReply.err "late"],
    c8_rpc_call_reply_handling.2.2.2.2.1 "boom"⟩

/-! ## Claim C2: the emitted server handler -/

/-- C2: every emitted handler (`generator/gen_server_nanopb.py` lines
261-317) follows the strict decode → invoke → encode → release sequence:
decode failure returns `DECODE_ERROR` without invoking the implementation
and reaches no release; a non-OK implementation status releases the
pointer-bearing request (if applicable) and propagates the status; encode
failure releases pointer-bearing request and response as applicable and
returns `ENCODE_ERROR`; encode success releases as applicable and returns
`OK`.  Consequently a pointer-bearing request is released on every exit
path after a successful decode, and a pointer-bearing response on every
exit path after a successful invocation. -/
theorem c2_emitted_handler_paths :
    ∀ (reqRel resRel decodeOk : Bool) (implStatus : RpcStatus) (encodeOk : Bool),
      (decodeOk = false →
        emittedHandler reqRel resRel decodeOk implStatus encodeOk =
          ⟨.DECODE_ERROR, false, false, false⟩) ∧
      (decodeOk = true → implStatus ≠ .OK →
        emittedHandler reqRel resRel decodeOk implStatus encodeOk =
          ⟨implStatus, true, reqRel, false⟩) ∧
      (decodeOk = true → implStatus = .OK → encodeOk = false →
        emittedHandler reqRel resRel decodeOk implStatus encodeOk =
          ⟨.ENCODE_ERROR, true, reqRel, resRel⟩) ∧
      (decodeOk = true → implStatus = .OK → encodeOk = true →
        emittedHandler reqRel resRel decodeOk implStatus encodeOk =
          ⟨.OK, true, reqRel, resRel⟩) ∧
      (reqRel = true → decodeOk = true →
        (emittedHandler reqRel resRel decodeOk implStatus encodeOk).releasedReq = true) ∧
      (resRel = true → decodeOk = true → implStatus = .OK →
        (emittedHandler reqRel resRel decodeOk implStatus encodeOk).releasedRes = true) := by
  intro reqRel resRel decodeOk implStatus encodeOk
  cases decodeOk <;> cases encodeOk <;> cases implStatus <;> cases reqRel <;> cases resRel <;>
    simp [emittedHandler]

/-- Witness for C2: concrete traces for a decode failure, a non-OK
implementation status and the all-success path of a method with
pointer-bearing request and response. -/
theorem c2_emitted_handler_paths_witness :
    emittedHandler true true false .OK true = ⟨.DECODE_ERROR, false, false, false⟩ ∧
    emittedHandler true true true .APP_ERROR true = ⟨.APP_ERROR, true, true, false⟩ ∧
    emittedHandler true true true .OK true = ⟨.OK, true, true, true⟩ :=
  ⟨(c2_emitted_handler_paths true true false .OK true).1 rfl,
    (c2_emitted_handler_paths true true true .APP_ERROR true).2.1 rfl (by decide),
    (c2_emitted_handler_paths true true true .OK true).2.2.2.1 rfl rfl rfl⟩

/-! ## Claim C7: the emitted client call's return shape -/

/-- C7: the emitted client call (`generator/gen_client_python.py` lines
87-117) returns only a success/failure marker exactly when the method's
output type name ends with `"Empty"`; otherwise, transport success parses
the reply bytes into the output type and returns `(success, payload)` and
transport failure returns the failure marker with the transport's error
text and no payload. -/
theorem c7_emitted_client_call_shape :
    ∀ (Payload : Type) (parse : List Nat → Payload) (outputType : String) (result : RpcResult),
      ((∃ resp, emittedClientCall outputType parse result = .statusOnly resp) ↔
        pyEndsWith outputType "Empty" = true) ∧
      (pyEndsWith outputType "Empty" = true → result.success = true →
        emittedClientCall outputType parse result = .statusOnly ⟨true, none⟩) ∧
      (pyEndsWith outputType "Empty" = true → result.success = false →
        emittedClientCall outputType parse result = .statusOnly ⟨false, result.error⟩) ∧
      (pyEndsWith outputType "Empty" = false → result.success = true →
        emittedClientCall outputType parse result =
          .withPayload ⟨true, none⟩ (some (parse result.data))) ∧
      (pyEndsWith outputType "Empty" = false → result.success = false →
        emittedClientCall outputType parse result = .withPayload ⟨false, result.error⟩ none) := by
  intro Payload parse outputType result
  by_cases he : pyEndsWith outputType "Empty" = true <;>
    cases hs : result.success <;>
      simp [emittedClientCall, he, hs]

/-- Witness for C7: a zero-payload output type yields a bare marker, a
payload-bearing output type yields the parsed payload. -/
theorem c7_emitted_client_call_shape_witness :
    emittedClientCall ".practice.rpc.Empty" (fun bs => bs) ⟨true, [7], none⟩ =
      .statusOnly ⟨true, none⟩ ∧
    emittedClientCall ".practice.rpc.LedResponse" (fun bs => bs) ⟨true, [7], none⟩ =
      .withPayload ⟨true, none⟩ (some [7]) :=
  ⟨(c7_emitted_client_call_shape (List Nat) (fun bs => bs) ".practice.rpc.Empty"
      ⟨true, [7], none⟩).2.1 (by decide) rfl,
    (c7_emitted_client_call_shape (List Nat) (fun bs => bs) ".practice.rpc.LedResponse"
      ⟨true, [7], none⟩).2.2.2.1 (by decide) rfl⟩

/-! ## Claim C9: unresolvable input types -/

/-- C9: when a method's declared input type resolves to no message in the
qualified-name map (`generator/gen_client_python.py` lines 26-32 and
76-101), the emitter degrades to an empty field list: the emitted call
takes no per-field named parameters and constructs the request with zero
arguments (the same list feeds both), and generation does not abort (the
embedding is a total function). -/
theorem c9_unresolved_input_type_empty_params (package : String)
    (messages : List MessageDesc) (inputType : String)
    (h : ∀ msg ∈ messages, qualifiedName package msg.name ≠ inputType) :
    methodFieldParams (get_message_map package messages) inputType = [] := by
  unfold methodFieldParams msgMapGet
  have hfind : (get_message_map package messages).find? (fun kv => kv.1 == inputType) = none := by
    rw [List.find?_eq_none]
    intro kv hkv
    unfold get_message_map at hkv
    simp only [List.mem_map] at hkv
    obtain ⟨msg, hmsg, hkveq⟩ := hkv
    rw [← hkveq]
    simpa using h msg hmsg
  rw [hfind]
  rfl

/-- Witness for C9: a method whose input type is absent from the schema's
message map gets an empty parameter list. -/
theorem c9_unresolved_input_type_empty_params_witness :
    methodFieldParams
      (get_message_map "practice.rpc" [⟨"LedRequest", [⟨"on", 8⟩], []⟩])
      ".practice.rpc.Missing" = [] :=
  c9_unresolved_input_type_empty_params "practice.rpc" [⟨"LedRequest", [⟨"on", 8⟩], []⟩]
    ".practice.rpc.Missing" (by decide)

/-! ## Claim C5: custom-option key resolution -/

/-- C5: the custom-option field number is 50001 by default and is
overridden by the field number of the first extension (in file and
declaration order, anywhere in the schema) whose name ends with
`"zenoh_key"` (`generator/util.py` lines 13-19); and the per-message
option lookups of the client emitter's telemetry loop
(`generator/gen_client_python.py` lines 138-143) all use this one resolved
number, so the resolution is schema-run-wide. -/
theorem c5_custom_option_key_resolution :
    (∀ request : CodeGenRequest,
      (∀ pf ∈ request.proto_file, ∀ ext ∈ pf.extensions,
        pyEndsWith ext.name "zenoh_key" = false) →
      find_zenoh_key request = 50001) ∧
    (∀ (pre post : List ProtoFileDesc) (pf : ProtoFileDesc)
        (epre epost : List ProtoExtension) (ext : ProtoExtension),
      (∀ pf' ∈ pre, ∀ e ∈ pf'.extensions, pyEndsWith e.name "zenoh_key" = false) →
      (∀ e ∈ epre, pyEndsWith e.name "zenoh_key" = false) →
      pyEndsWith ext.name "zenoh_key" = true →
      pf.extensions = epre ++ ext :: epost →
      find_zenoh_key ⟨pre ++ pf :: post⟩ = ext.number) ∧
    (∀ (request : CodeGenRequest) (messages : List MessageDesc),
      ∀ p ∈ telemetryLookupKeys request messages, p.2 = find_zenoh_key request) := by
  refine ⟨?_, ?_, ?_⟩
  · intro request h
    unfold find_zenoh_key
    have hnone : request.proto_file.findSome?
        (fun proto_file => proto_file.extensions.find?
          (fun ext => pyEndsWith ext.name "zenoh_key")) = none := by
      rw [List.findSome?_eq_none_iff]
      intro pf hpf
      rw [List.find?_eq_none]
      intro ext hext
      simp [h pf hpf ext hext]
    rw [hnone]
  · intro pre post pf epre epost ext hpre hepre hext hexts
    unfold find_zenoh_key
    have hprenone : pre.findSome?
        (fun proto_file => proto_file.extensions.find?
          (fun e => pyEndsWith e.name "zenoh_key")) = none := by
      rw [List.findSome?_eq_none_iff]
      intro pf' hpf'
      rw [List.find?_eq_none]
      intro e he
      simp [hpre pf' hpf' e he]
    have hfound : pf.extensions.find? (fun e => pyEndsWith e.name "zenoh_key") = some ext := by
      rw [hexts, List.find?_append]
      have henone : epre.find? (fun e => pyEndsWith e.name "zenoh_key") = none := by
        rw [List.find?_eq_none]
        intro e he
        simp [hepre e he]
      rw [henone, List.find?_cons, hext]
      rfl
    rw [List.findSome?_append, hprenone, List.findSome?_cons, hfound]
    rfl
  · intro request messages p hp
    unfold telemetryLookupKeys at hp
    simp only [List.mem_map] at hp
    obtain ⟨msg, _, hmsg⟩ := hp
    rw [← hmsg]

/-- Witness for C5: a schema with one `zenoh_key`-suffixed extension at
field 60000 resolves the key to 60000; a schema with none resolves to
50001; and a telemetry lookup list uses the resolved number. -/
theorem c5_custom_option_key_resolution_witness :
    find_zenoh_key ⟨[⟨"a.proto", []⟩, ⟨"b.proto", [⟨"opts", 1⟩,
      ⟨"my_zenoh_key", 60000⟩]⟩]⟩ = 60000 ∧
    find_zenoh_key ⟨[⟨"a.proto", [⟨"other", 9⟩]⟩]⟩ = 50001 := by
  constructor
  · exact c5_custom_option_key_resolution.2.1 [⟨"a.proto", []⟩] [] ⟨"b.proto", _⟩
      [⟨"opts", 1⟩] [] ⟨"my_zenoh_key", 60000⟩
      (by decide) (by decide) (by decide) rfl
  · exact c5_custom_option_key_resolution.1 _ (by decide)

/-! ## Claim C4: the default telemetry topic

The emitter computes the base name with
`msg.name.replace("Telemetry", "")`, which removes **every** occurrence of
`"Telemetry"`, not only the trailing one.  For names in which
`"Telemetry"` occurs only as the suffix the two descriptions coincide, but
they differ on a name such as `"TelemetryTelemetry"`. -/

/-- Counterexample to C4 as stated: the telemetry message
`"TelemetryTelemetry"` (which ends with `"Telemetry"`) with no custom key
option and device id `"dev1"` subscribes on `"dev1/telemetry/"`, not on
`"dev1/telemetry/" ++ snake_case(suffix-removed base)` =
`"dev1/telemetry/telemetry"` as the claim's suffix-removal reading
predicts. -/
theorem c4_default_topic_counterexample :
    telemetryKeyExpr (fun _ => "") 50001 "dev1" ⟨"TelemetryTelemetry", [], []⟩ =
      .ok "dev1/telemetry/" ∧
    to_snake_case (dropSuffixStr "TelemetryTelemetry" "Telemetry") = "telemetry" ∧
    telemetryKeyExpr (fun _ => "") 50001 "dev1" ⟨"TelemetryTelemetry", [], []⟩ ≠
      .ok ("dev1" ++ ("/telemetry/" ++
        to_snake_case (dropSuffixStr "TelemetryTelemetry" "Telemetry"))) := by
  refine ⟨rfl, by decide, ?_⟩
  intro h
  rw [show telemetryKeyExpr (fun _ => "") 50001 "dev1" ⟨"TelemetryTelemetry", [], []⟩ =
    Except.ok "dev1/telemetry/" from rfl] at h
  exact absurd (Except.ok.inj h) (by decide)

/-- C4 (amended): for every message whose name ends with `"Telemetry"` and
that carries no custom key option, the emitted subscriber uses the default
topic `"<device-id>/telemetry/<snake_case(base)>"` where the base name is
the message name with **every occurrence** of `"Telemetry"` removed
(Python `str.replace`); in particular `"SensorTelemetry"` with device id
`"dev1"` subscribes on `"dev1/telemetry/sensor"`
(`generator/gen_client_python.py` lines 138-151). -/
theorem c4_default_topic_amended :
    (∀ (utf8 : List Nat → String) (keyFieldNumber : Nat) (deviceId : String)
        (msg : MessageDesc),
      pyEndsWith msg.name "Telemetry" = true →
      get_option_value msg.options keyFieldNumber = .ok none →
      telemetryKeyExpr utf8 keyFieldNumber deviceId msg =
        .ok (deviceId ++ ("/telemetry/" ++ to_snake_case (pyReplace msg.name "Telemetry" "")))) ∧
    telemetryKeyExpr (fun _ => "") 50001 "dev1" ⟨"SensorTelemetry", [], []⟩ =
      .ok "dev1/telemetry/sensor" := by
  constructor
  · intro utf8 keyFieldNumber deviceId msg _ hopt
    unfold telemetryKeyExpr
    rw [hopt]
  · rfl

/-- Witness for the amended C4 at the spec's telemetry scenario. -/
theorem c4_default_topic_amended_witness :
    telemetryKeyExpr (fun _ => "") 50001 "dev1" ⟨"SensorTelemetry", [], []⟩ =
      .ok ("dev1" ++ ("/telemetry/" ++ to_snake_case (pyReplace "SensorTelemetry" "Telemetry" ""))) :=
  c4_default_topic_amended.1 (fun _ => "") 50001 "dev1" ⟨"SensorTelemetry", [], []⟩
    (by decide) rfl

/-! ## Claim C6: the sidecar registry — helper lemmas -/

/-- A directive-path segment as the claim's line form uses it: non-empty,
no whitespace, no dot. -/
def plainSeg (s : String) : Bool :=
  !s.data.isEmpty && s.data.all (fun c => !isWsCh c && !(c == '.'))

theorem pyStrip_eq_self (s : String)
    (h1 : ∀ c, s.data.head? = some c → isWsCh c = false)
    (h2 : ∀ c, s.data.getLast? = some c → isWsCh c = false) : pyStrip s = s := by
  unfold pyStrip
  have hfront : s.data.dropWhile isWsCh = s.data := by
    cases hd : s.data with
    | nil => rfl
    | cons c cs =>
      rw [List.dropWhile_cons, if_neg]
      rw [h1 c (by rw [hd]; rfl)]
      simp
  rw [hfront]
  have hback : s.data.reverse.dropWhile isWsCh = s.data.reverse := by
    cases hd : s.data.reverse with
    | nil => rfl
    | cons c cs =>
      rw [List.dropWhile_cons, if_neg]
      have : s.data.getLast? = some c := by
        rw [← List.head?_reverse, hd]
        rfl
      rw [h2 c this]
      simp
  rw [hback, List.reverse_reverse]

theorem isPrefixOf_self (l : List Char) : l.isPrefixOf l = true := by
  induction l with
  | nil => rfl
  | cons c cs ih => simp [List.isPrefixOf, ih]

theorem containsSub_append_self (pat : List Char) :
    ∀ a : List Char, containsSub pat (a ++ pat) = true := by
  intro a
  induction a with
  | nil =>
    show containsSub pat pat = true
    cases pat with
    | nil => rfl
    | cons p ps =>
      show (List.isPrefixOf (p :: ps) (p :: ps) || containsSub (p :: ps) ps) = true
      rw [isPrefixOf_self]
      rfl
  | cons x a' ih =>
    show (List.isPrefixOf pat (x :: (a' ++ pat)) || containsSub pat (a' ++ pat)) = true
    rw [ih, Bool.or_true]

theorem foldr_splitWsStep_token (B : List Char) (hB : B ≠ [])
    (hBw : ∀ c ∈ B, isWsCh c = false) : B.foldr splitWsStep [] = [B] := by
  induction B with
  | nil => exact absurd rfl hB
  | cons c cs ih =>
    rw [List.foldr_cons]
    cases cs with
    | nil =>
      show splitWsStep c [] = [[c]]
      unfold splitWsStep
      rw [if_neg]
      rw [hBw c (List.mem_cons_self c [])]
      simp
    | cons d ds =>
      rw [ih (by simp) (fun x hx => hBw x (List.mem_cons_of_mem c hx))]
      unfold splitWsStep
      rw [if_neg]
      rw [hBw c (List.mem_cons_self c (d :: ds))]
      simp

theorem foldr_splitWsStep_extend (ts : List (List Char)) :
    ∀ (A : List Char), A ≠ [] → (∀ c ∈ A, isWsCh c = false) →
      A.foldr splitWsStep ([] :: ts) = A :: ts := by
  intro A
  induction A with
  | nil => exact fun h _ => absurd rfl h
  | cons c cs ih =>
    intro _ hw
    rw [List.foldr_cons]
    cases cs with
    | nil =>
      show splitWsStep c ([] :: ts) = [c] :: ts
      unfold splitWsStep
      rw [if_neg]
      rw [hw c (List.mem_cons_self c [])]
      simp
    | cons d ds =>
      rw [ih (by simp) (fun x hx => hw x (List.mem_cons_of_mem c hx))]
      unfold splitWsStep
      rw [if_neg]
      rw [hw c (List.mem_cons_self c (d :: ds))]
      simp

theorem foldr_splitWsStep_two (A B : List Char) (hA : A ≠ []) (hB : B ≠ [])
    (hAw : ∀ c ∈ A, isWsCh c = false) (hBw : ∀ c ∈ B, isWsCh c = false) :
    (A ++ ' ' :: B).foldr splitWsStep [] = [A, B] := by
  rw [List.foldr_append, List.foldr_cons, foldr_splitWsStep_token B hB hBw]
  have hstep : splitWsStep ' ' [B] = [] :: [B] := by
    unfold splitWsStep
    rw [if_pos (by decide)]
    cases B with
    | nil => exact absurd rfl hB
    | cons b bs => rfl
  rw [hstep]
  exact foldr_splitWsStep_extend [B] A hA hAw

theorem pySplitWs_two (A B : List Char) (hA : A ≠ []) (hB : B ≠ [])
    (hAw : ∀ c ∈ A, isWsCh c = false) (hBw : ∀ c ∈ B, isWsCh c = false) :
    pySplitWs ⟨A ++ ' ' :: B⟩ = [⟨A⟩, ⟨B⟩] := by
  unfold pySplitWs
  show (match (A ++ ' ' :: B).foldr splitWsStep [] with
    | [] :: ts => ts.map (fun l => String.mk l)
    | r => r.map (fun l => String.mk l)) = _
  rw [foldr_splitWsStep_two A B hA hB hAw hBw]
  cases A with
  | nil => exact absurd rfl hA
  | cons a as => rfl

theorem splitDot_append (rest : List Char) :
    ∀ a : List Char, (∀ c ∈ a, c ≠ '.') →
      splitDot (a ++ '.' :: rest) = a :: splitDot rest := by
  intro a
  induction a with
  | nil =>
    intro _
    show splitDot ('.' :: rest) = [] :: splitDot rest
    rw [splitDot, if_pos rfl]
  | cons c cs ih =>
    intro h
    show splitDot (c :: (cs ++ '.' :: rest)) = (c :: cs) :: splitDot rest
    rw [splitDot, if_neg (h c (List.mem_cons_self c cs)),
      ih (fun x hx => h x (List.mem_cons_of_mem c hx))]

theorem splitDot_dotfree : ∀ l : List Char, (∀ c ∈ l, c ≠ '.') → splitDot l = [l] := by
  intro l
  induction l with
  | nil => intro _; rfl
  | cons c cs ih =>
    intro h
    rw [splitDot, if_neg (h c (List.mem_cons_self c cs)),
      ih (fun x hx => h x (List.mem_cons_of_mem c hx))]

theorem plainSeg_spec (s : String) (h : plainSeg s = true) :
    s.data ≠ [] ∧ ∀ c ∈ s.data, isWsCh c = false ∧ c ≠ '.' := by
  rw [plainSeg, Bool.and_eq_true] at h
  constructor
  · intro hnil
    rw [hnil] at h
    simp at h
  · intro c hc
    have hcc := List.all_eq_true.mp h.2 c hc
    rw [Bool.and_eq_true] at hcc
    exact ⟨by simpa using hcc.1, by simpa using hcc.2⟩

/-- One fold step of `parse_options_file` either appends the line's
extracted message name or leaves the accumulator unchanged. -/
theorem parse_options_line_eq (acc : List String) (rawLine : String) :
    parse_options_line acc rawLine =
      match lineMsgName rawLine with
      | some msg_name => acc ++ [msg_name]
      | none => acc := by
  unfold parse_options_line lineMsgName
  simp only []
  by_cases h1 : ((pyStrip rawLine).data = [] ∨ pyStartsWith (pyStrip rawLine) "#" = true)
  · simp only [if_pos h1]
  · simp only [if_neg h1]
    by_cases h2 : pyContains (pyStrip rawLine) "type:FT_POINTER" = true
    · simp only [if_pos h2]
      rcases hsw : pySplitWs (pyStrip rawLine) with _ | ⟨fp, rest⟩
      · rfl
      · by_cases h3 : 1 ≤ rest.length
        · simp only [if_pos h3]
          by_cases h4 : '.' ∈ fp.data
          · simp only [if_pos h4]
            rcases hg : (pySplitDot fp).get? ((pySplitDot fp).length - 2) with _ | m
            · rfl
            · by_cases h5 : m.data = []
              · simp only [if_pos h5]
              · simp only [if_neg h5]
          · simp only [if_neg h4]
        · simp only [if_neg h3]
    · simp only [if_neg h2]

/-- Membership in the registry built from any sidecar file is exactly:
some line of the file contributes that message name. -/
theorem mem_parse_options_file (fileLines : List String) (name : String) :
    name ∈ parse_options_file (some fileLines) ↔
      ∃ line ∈ fileLines, lineMsgName line = some name := by
  have key : ∀ (ls acc : List String),
      (name ∈ ls.foldl parse_options_line acc ↔
        name ∈ acc ∨ ∃ l ∈ ls, lineMsgName l = some name) := by
    intro ls
    induction ls with
    | nil => intro acc; simp
    | cons l ls ih =>
      intro acc
      rw [List.foldl_cons, ih (parse_options_line acc l), parse_options_line_eq acc l]
      rcases hl : lineMsgName l with _ | m
      · show (name ∈ acc ∨ ∃ x ∈ ls, lineMsgName x = some name) ↔
          (name ∈ acc ∨ ∃ x ∈ l :: ls, lineMsgName x = some name)
        constructor
        · rintro (h | ⟨x, hx, hpx⟩)
          · exact Or.inl h
          · exact Or.inr ⟨x, List.mem_cons_of_mem l hx, hpx⟩
        · rintro (h | ⟨x, hx, hpx⟩)
          · exact Or.inl h
          · rcases List.mem_cons.mp hx with h2 | h2
            · subst h2
              rw [hl] at hpx
              exact absurd hpx (by simp)
            · exact Or.inr ⟨x, h2, hpx⟩
      · show (name ∈ acc ++ [m] ∨ ∃ x ∈ ls, lineMsgName x = some name) ↔
          (name ∈ acc ∨ ∃ x ∈ l :: ls, lineMsgName x = some name)
        constructor
        · rintro (h | ⟨x, hx, hpx⟩)
          · rcases List.mem_append.mp h with h2 | h2
            · exact Or.inl h2
            · refine Or.inr ⟨l, List.mem_cons_self l ls, ?_⟩
              rw [hl, List.mem_singleton.mp h2]
          · exact Or.inr ⟨x, List.mem_cons_of_mem l hx, hpx⟩
        · rintro (h | ⟨x, hx, hpx⟩)
          · exact Or.inl (List.mem_append.mpr (Or.inl h))
          · rcases List.mem_cons.mp hx with h2 | h2
            · subst h2
              rw [hl] at hpx
              refine Or.inl (List.mem_append.mpr (Or.inr ?_))
              rw [(Option.some.inj hpx).symm]
              exact List.mem_singleton.mpr rfl
            · exact Or.inr ⟨x, h2, hpx⟩
  rw [show parse_options_file (some fileLines) = fileLines.foldl parse_options_line [] from rfl,
    key fileLines []]
  simp

/-- For a well-formed directive line the extracted name is exactly the
message-name segment of the dotted path. -/
theorem lineMsgName_directive (pkg msg fld : String)
    (hpkg : plainSeg pkg = true) (hmsg : plainSeg msg = true) (hfld : plainSeg fld = true)
    (hhash : pkg.data.head? ≠ some '#') :
    lineMsgName (pkg ++ "." ++ msg ++ "." ++ fld ++ " type:FT_POINTER") = some msg := by
  obtain ⟨hpkgne, hpkgc⟩ := plainSeg_spec pkg hpkg
  obtain ⟨hmsgne, hmsgc⟩ := plainSeg_spec msg hmsg
  obtain ⟨hfldne, hfldc⟩ := plainSeg_spec fld hfld
  obtain ⟨p, prest, hp⟩ := List.exists_cons_of_ne_nil hpkgne
  have hpmem : p ∈ pkg.data := by rw [hp]; exact List.mem_cons_self p prest
  have hpnw : isWsCh p = false := (hpkgc p hpmem).1
  have hpnh : p ≠ '#' := by
    intro hcontra
    apply hhash
    rw [hp, hcontra]
    rfl
  -- the dotted path and the full line at the character level
  set pathD : List Char := pkg.data ++ '.' :: (msg.data ++ '.' :: fld.data) with hpathD
  set patB : List Char := ("type:FT_POINTER" : String).data with hpatB
  have hpathne : pathD ≠ [] := by rw [hpathD, hp]; simp
  have hpathw : ∀ c ∈ pathD, isWsCh c = false := by
    intro c hc
    rw [hpathD] at hc
    rcases List.mem_append.mp hc with h1 | h1
    · exact (hpkgc c h1).1
    · rcases List.mem_cons.mp h1 with h2 | h2
      · rw [h2]; decide
      · rcases List.mem_append.mp h2 with h3 | h3
        · exact (hmsgc c h3).1
        · rcases List.mem_cons.mp h3 with h4 | h4
          · rw [h4]; decide
          · exact (hfldc c h4).1
  have hline : pkg ++ "." ++ msg ++ "." ++ fld ++ " type:FT_POINTER" =
      ⟨pathD ++ ' ' :: patB⟩ := by
    apply String.ext
    simp only [String.data_append, hpathD, hpatB]
    simp [List.append_assoc]
  rw [hline]
  -- the line survives stripping and the comment test
  have hstrip : pyStrip ⟨pathD ++ ' ' :: patB⟩ = ⟨pathD ++ ' ' :: patB⟩ := by
    apply pyStrip_eq_self
    · intro c hc
      rw [show (String.mk (pathD ++ ' ' :: patB)).data = pathD ++ ' ' :: patB from rfl] at hc
      rw [hpathD, hp] at hc
      simp only [List.cons_append, List.head?_cons, Option.some.injEq] at hc
      rw [← hc]
      exact hpnw
    · intro c hc
      rw [show (String.mk (pathD ++ ' ' :: patB)).data = pathD ++ ' ' :: patB from rfl] at hc
      rw [show (' ' :: patB) = (' ' :: ("type:FT_POINTE" : String).data) ++ ['R'] from rfl,
        ← List.append_assoc] at hc
      rw [List.getLast?_concat] at hc
      rw [← Option.some.inj hc]
      decide
  have hcond1 : ¬((String.mk (pathD ++ ' ' :: patB)).data = [] ∨
      pyStartsWith ⟨pathD ++ ' ' :: patB⟩ "#" = true) := by
    rw [hpathD, hp]
    intro hcontra
    rcases hcontra with h1 | h1
    · simp at h1
    · rw [show pyStartsWith ⟨(p :: prest) ++ '.' :: (msg.data ++ '.' :: fld.data) ++ ' ' :: patB⟩ "#"
          = (('#' == p) && List.isPrefixOf [] (prest ++ ('.' :: (msg.data ++ '.' :: fld.data)) ++ ' ' :: patB)) from rfl] at h1
      simp only [List.isPrefixOf, Bool.and_true] at h1
      exact hpnh (beq_iff_eq.mp h1).symm
  have hcond2 : pyContains ⟨pathD ++ ' ' :: patB⟩ "type:FT_POINTER" = true := by
    rw [show pyContains ⟨pathD ++ ' ' :: patB⟩ "type:FT_POINTER"
        = containsSub patB (pathD ++ ' ' :: patB) from rfl]
    rw [show pathD ++ ' ' :: patB = (pathD ++ [' ']) ++ patB by simp]
    exact containsSub_append_self patB (pathD ++ [' '])
  have hsplitws : pySplitWs ⟨pathD ++ ' ' :: patB⟩ = [⟨pathD⟩, ⟨patB⟩] :=
    pySplitWs_two pathD patB hpathne (by rw [hpatB]; decide) hpathw
      (by rw [hpatB]; decide)
  have hdotmem : '.' ∈ (String.mk pathD).data := by
    rw [show (String.mk pathD).data = pathD from rfl, hpathD]
    exact List.mem_append.mpr (Or.inr (List.mem_cons_self _ _))
  have hsplitdot : pySplitDot ⟨pathD⟩ = [pkg, msg, fld] := by
    unfold pySplitDot
    rw [show (String.mk pathD).data = pathD from rfl, hpathD]
    rw [splitDot_append _ pkg.data (fun c hc => (hpkgc c hc).2),
      splitDot_append _ msg.data (fun c hc => (hmsgc c hc).2),
      splitDot_dotfree fld.data (fun c hc => (hfldc c hc).2)]
    rfl
  -- run the loop body on the line
  show lineMsgName ⟨pathD ++ ' ' :: patB⟩ = some msg
  unfold lineMsgName
  simp only []
  rw [hstrip]
  rw [if_neg hcond1, if_pos hcond2, hsplitws]
  simp only [List.length_cons, List.length_nil, le_refl, if_pos]
  rw [if_pos hdotmem, hsplitdot]
  simp only [List.length_cons, List.length_nil]
  rw [show (2 + 1 - 2 : Nat) = 1 from rfl]
  rw [show ([pkg, msg, fld].get? 1) = some msg from rfl]
  simp [hmsgne]

/-- C6: for every sidecar registry file, a non-comment line of the form
`"pkg.Msg.field type:FT_POINTER"` (plain identifier segments) anywhere in
the file puts the message-name segment `Msg` of the dotted path into the
registry, qualification discarded; for every file and every name, a name
contributed by no line of the file is not in the registry (lookup false);
and a missing or unreadable sidecar file yields the empty registry — the
embedding is a total function, so no error is raised and generation never
aborts (`generator/gen_server_nanopb.py` lines 21-90). -/
theorem c6_sidecar_registry :
    (∀ (fileLines : List String) (pkg msg fld : String),
      plainSeg pkg = true → plainSeg msg = true → plainSeg fld = true →
      pkg.data.head? ≠ some '#' →
      (pkg ++ "." ++ msg ++ "." ++ fld ++ " type:FT_POINTER") ∈ fileLines →
      msg ∈ parse_options_file (some fileLines)) ∧
    (∀ (fileLines : List String) (name : String),
      (∀ line ∈ fileLines, lineMsgName line ≠ some name) →
      name ∉ parse_options_file (some fileLines)) ∧
    parse_options_file none = [] := by
  refine ⟨?_, ?_, rfl⟩
  · intro fileLines pkg msg fld hpkg hmsg hfld hhash hmem
    exact (mem_parse_options_file fileLines msg).mpr
      ⟨_, hmem, lineMsgName_directive pkg msg fld hpkg hmsg hfld hhash⟩
  · intro fileLines name h hcontra
    obtain ⟨l, hl, hex⟩ := (mem_parse_options_file fileLines name).mp hcontra
    exact h l hl hex

/-- Witness for C6: the spec's concrete directive line inside a
multi-line file registers `Msg`, and `Other`, contributed by no line,
is absent. -/
theorem c6_sidecar_registry_witness :
    "Msg" ∈ parse_options_file
      (some ["# comment", "pkg" ++ "." ++ "Msg" ++ "." ++ "field" ++ " type:FT_POINTER"]) ∧
    "Other" ∉ parse_options_file (some ["pkg.Msg.field type:FT_POINTER"]) :=
  ⟨c6_sidecar_registry.1
      ["# comment", "pkg" ++ "." ++ "Msg" ++ "." ++ "field" ++ " type:FT_POINTER"]
      "pkg" "Msg" "field" (by decide) (by decide) (by decide) (by decide) (by decide),
    c6_sidecar_registry.2.1 ["pkg.Msg.field type:FT_POINTER"] "Other" (by decide)⟩

end ZenohRpc
